import Mathlib

/-!
Verification of the attendance eligibility engine of an internship ERP.

Calendar dates are modelled as their epoch-day number (days since
1970-01-01, the value a JavaScript `Date` holds, divided by 86400000ms,
when it parses a canonical "YYYY-MM-DD" string as UTC midnight).  Under
this convention:
  * `new Date(s).getTime()` comparisons become integer comparisons;
  * `date.getDay()` (0 = Sunday .. 6 = Saturday, UTC) becomes
    `(n + 4) % 7` because 1970-01-01 was a Thursday (= 4);
  * `toISOString().split("T")[0]` is the identity on canonical dates;
  * string equality / lexicographic comparison of canonical
    "YYYY-MM-DD" strings coincides with equality / order of epoch days.

`mkDate y m d` converts a calendar date to its epoch-day number so that
concrete scenarios from the specification can be stated literally.
-/

/-- Gregorian leap-year test. -/
def isLeapYear (y : Nat) : Bool :=
  (y % 4 == 0 && y % 100 != 0) || y % 400 == 0

/-- Number of days between 1970-01-01 and January 1st of the `n`-th year
after 1970. -/
def daysSinceEpochYears : Nat → Nat
  | 0 => 0
  | n + 1 => daysSinceEpochYears n + (if isLeapYear (1970 + n) then 366 else 365)

/-- Cumulative day counts before each month in a non-leap year. -/
def monthOffsets : List Nat :=
  [0, 31, 59, 90, 120, 151, 181, 212, 243, 273, 304, 334]

/-- Epoch-day number of the calendar date `y-m-d` (month and day are
1-based), for years from 1970 on. -/
def mkDate (y m d : Nat) : Int :=
  Int.ofNat (daysSinceEpochYears (y - 1970)
    + monthOffsets.getD (m - 1) 0
    + (if isLeapYear y && decide (2 < m) then 1 else 0)
    + (d - 1))

example : mkDate 1970 1 1 = 0 := by decide
example : mkDate 2024 1 1 = 19723 := by decide
example : mkDate 2024 3 5 = 19787 := by decide

/-- Embeds `isWeekend` (src/server/utils/attendance.ts): the date's
`getDay()` is Sunday (0) or Saturday (6). -/
def isWeekend (dateStr : Int) : Bool :=
  let dayOfWeek := (dateStr + 4) % 7
  dayOfWeek == 0 || dayOfWeek == 6

-- 2024-03-05 was a Tuesday, 2024-03-09 a Saturday, 2024-03-10 a Sunday.
example : isWeekend (mkDate 2024 3 5) = false := by decide
example : isWeekend (mkDate 2024 3 9) = true := by decide
example : isWeekend (mkDate 2024 3 10) = true := by decide

/-- Embeds `getDayName` (src/server/utils/attendance.ts): the weekday
name selected by `getDay()` from the Sunday-first name table. -/
def getDayName (dateStr : Int) : String :=
  ["Sunday", "Monday", "Tuesday", "Wednesday", "Thursday", "Friday",
    "Saturday"].getD ((dateStr + 4) % 7).toNat ""

example : getDayName (mkDate 2024 3 5) = "Tuesday" := by decide

/-- Result record of the working-day checks (`{ isValid, reason? }`). -/
structure WorkingDayCheck where
  isValid : Bool
  reason : Option String
deriving DecidableEq, Repr

/-- Embeds `isValidWorkingDay` (src/server/utils/attendance.ts): weekend
check first, then holiday membership. -/
def isValidWorkingDay (dateStr : Int) (holidays : List Int) : WorkingDayCheck :=
  if isWeekend dateStr then
    ⟨false, some "Cannot mark attendance on weekends"⟩
  else if holidays.contains dateStr then
    ⟨false, some "Cannot mark attendance on holidays"⟩
  else
    ⟨true, none⟩

/-- Embeds `isWithinInternshipPeriod` (src/server/utils/attendance.ts):
`getTime()` comparisons `start <= date <= end`. -/
def isWithinInternshipPeriod (date startDate endDate : Int) : Bool :=
  decide (startDate ≤ date) && decide (date ≤ endDate)

/-- The inclusive day-by-day enumeration performed by the
`while (current <= end)` loop: `startDate, startDate + 1, ..., endDate`
(empty when `startDate > endDate`). -/
def dateRange (startDate endDate : Int) : List Int :=
  (List.range (endDate + 1 - startDate).toNat).map
    (fun (i : Nat) => startDate + (i : Int))

/-- Embeds `getWorkingDaysInRange` (src/server/utils/attendance.ts):
walk the inclusive range, keeping days that are neither weekend nor
holiday. -/
def getWorkingDaysInRange (startDate endDate : Int) (holidays : List Int) :
    List Int :=
  (dateRange startDate endDate).filter
    (fun dateStr => !isWeekend dateStr && !holidays.contains dateStr)

/-- Embeds `getWorkingDaysInWeek` (src/server/utils/attendance.ts):
`monday := date - getDay() + 1`, `friday := monday + 4`, then the
working days of that inclusive range. -/
def getWorkingDaysInWeek (dateStr : Int) (holidays : List Int) : List Int :=
  let dayOfWeek := (dateStr + 4) % 7
  let monday := dateStr - dayOfWeek + 1
  let friday := monday + 4
  getWorkingDaysInRange monday friday holidays

example :
    getWorkingDaysInWeek (mkDate 2024 3 7) [] =
      [mkDate 2024 3 4, mkDate 2024 3 5, mkDate 2024 3 6, mkDate 2024 3 7,
        mkDate 2024 3 8] := by decide

/-- Attendance status enum (`"present" | "absent"`). -/
inductive AttStatus where
  | present
  | absent
deriving DecidableEq, Repr

/-- An element of the `existingAttendance` array: `{ date, status }`. -/
structure AttendanceRecord where
  date : Int
  status : AttStatus
deriving DecidableEq, Repr

/-- Result record of `countAttendance`. -/
structure AttendanceCount where
  present : Nat
  absent : Nat
  total : Nat
deriving DecidableEq, Repr

/-- The accumulation loop of `countAttendance`: for each record in the
inclusive time range, bump `present` or `absent` by status. -/
def countAttendanceAux (startDate endDate : Int) :
    List AttendanceRecord → Nat × Nat
  | [] => (0, 0)
  | r :: rest =>
    let acc := countAttendanceAux startDate endDate rest
    if decide (startDate ≤ r.date) && decide (r.date ≤ endDate) then
      if r.status == AttStatus.present then (acc.1 + 1, acc.2)
      else (acc.1, acc.2 + 1)
    else acc

/-- Embeds `countAttendance` (src/server/utils/attendance.ts). -/
def countAttendance (attendanceRecords : List AttendanceRecord)
    (startDate endDate : Int) : AttendanceCount :=
  let pa := countAttendanceAux startDate endDate attendanceRecords
  ⟨pa.1, pa.2, pa.1 + pa.2⟩

/-!
IEEE-754 binary64 model.  JavaScript numbers are float64: each
arithmetic operation rounds its exact result to 53 significant bits,
round to nearest, ties to even.  A float64 value is carried as a
significand-exponent pair `(m, e)` denoting `m * 2 ^ e`, and every
rounding step is integer arithmetic, so concrete runs reduce in the
kernel.  Overflow and subnormals are not modelled: the model is
faithful for magnitudes between `2 ^ (-1022)` and `2 ^ 1024`, which
covers every quotient and product arising from integer inputs below
`2 ^ 53` (the integers exactly representable in float64).
-/

/-- Fuel-driven floor of the base-2 logarithm (structural recursion, so
concrete values reduce in the kernel). -/
def natLog2Aux : Nat → Nat → Nat
  | _, 0 => 0
  | n, fuel + 1 => if n < 2 then 0 else natLog2Aux (n / 2) fuel + 1

/-- Floor of the base-2 logarithm of a natural number. -/
def natLog2 (n : Nat) : Nat := natLog2Aux n n

example : natLog2 1 = 0 := by decide
example : natLog2 201 = 7 := by decide

/-- Round the fraction `a / b` to the nearest integer, ties to even
(for `b > 0`). -/
def rneFrac (a b : Nat) : Nat :=
  if b < 2 * (a % b) then a / b + 1
  else if 2 * (a % b) < b then a / b
  else if (a / b) % 2 = 0 then a / b else a / b + 1

/-- Floor of the base-2 logarithm of the positive fraction `a / b`: the
bit-length estimate, corrected by at most one step; the comparisons of
`a / b` against powers of two are cross-multiplied into natural
arithmetic. -/
def log2floorFrac (a b : Nat) : Int :=
  if a * 2 ^ (-((natLog2 a : Int) - (natLog2 b : Int))).toNat <
      b * 2 ^ ((natLog2 a : Int) - (natLog2 b : Int)).toNat then
    (natLog2 a : Int) - (natLog2 b : Int) - 1
  else if b * 2 ^ (((natLog2 a : Int) - (natLog2 b : Int)) + 1).toNat ≤
      a * 2 ^ (-(((natLog2 a : Int) - (natLog2 b : Int)) + 1)).toNat then
    (natLog2 a : Int) - (natLog2 b : Int) + 1
  else
    (natLog2 a : Int) - (natLog2 b : Int)

/-- The float64 division `a / b` of two natural numbers, as a
significand-exponent pair: the exact quotient is scaled to a 53-bit
significand and rounded to nearest, ties to even. -/
def fl64Frac (a b : Nat) : Int × Int :=
  if a = 0 ∨ b = 0 then (0, 0)
  else
    ((rneFrac (a * 2 ^ ((52 - log2floorFrac a b).toNat))
        (b * 2 ^ (-(52 - log2floorFrac a b)).toNat) : Int),
      log2floorFrac a b - 52)

/-- Binary64 rounding of the value `m * 2 ^ e` for an integer `m ≥ 0`:
re-rounds an exact product whose significand has grown beyond 53 bits
(the float64 multiplication of a float by an integer such as 100). -/
def fl64Z (m e : Int) : Int × Int :=
  if m = 0 then (0, 0)
  else if natLog2 m.toNat ≤ 52 then (m, e)
  else
    ((rneFrac m.toNat (2 ^ (natLog2 m.toNat - 52)) : Int),
      e + (natLog2 m.toNat : Int) - 52)

/-- `Math.round` of the nonnegative float64 value `m * 2 ^ e`: the
nearest integer, halves toward positive infinity. -/
def jsRound (m e : Int) : Int :=
  if 0 ≤ e then m * 2 ^ e.toNat
  else (2 * m + 2 ^ (-e).toNat) / ((2 ^ ((-e).toNat + 1) : ℕ) : ℤ)

/-- Embeds `calculateAttendancePercentage`
(src/server/utils/attendance.ts): `Math.round((presentDays /
totalWorkingDays) * 100)` with a zero-divisor guard, in IEEE-754
binary64 arithmetic: the division rounds `presentDays /
totalWorkingDays` to a float64 value `x`, the multiplication rounds
`x * 100` to a float64 value `y`, and `Math.round` takes `y` to the
nearest integer, halves up.  Faithful for inputs exactly representable
in float64 (integers below `2 ^ 53`). -/
def calculateAttendancePercentage (presentDays totalWorkingDays : Nat) : Int :=
  if totalWorkingDays = 0 then 0
  else
    let x := fl64Frac presentDays totalWorkingDays
    let y := fl64Z (x.1 * 100) x.2
    jsRound y.1 y.2

example : calculateAttendancePercentage 0 0 = 0 := by decide
example : calculateAttendancePercentage 1 3 = 33 := by decide
example : calculateAttendancePercentage 2 3 = 67 := by decide
-- The float64 artifact: (201/200)*100 computes to 100.49999999999999.
example : calculateAttendancePercentage 201 200 = 100 := by decide

/-- The interpolated weekly-limit violation message. -/
def weeklyLimitMessage (daysPerWeekAllowed : Nat) : String :=
  "Weekly attendance limit exceeded (" ++ toString daysPerWeekAllowed
    ++ " days per week allowed)"

/-- The engine's result record `{ isValid, errors }`. -/
structure ValidationResult where
  isValid : Bool
  errors : List String
deriving DecidableEq, Repr

/-- Embeds `validateAttendanceMarkable` (src/server/utils/attendance.ts):
the four checks run in order, each appending its violation reason to
`errors`; `isValid` is `errors.length === 0`. -/
def validateAttendanceMarkable (studentId : String) (date : Int)
    (daysPerWeekAllowed : Nat) (internshipStartDate internshipEndDate : Int)
    (holidays : List Int) (existingAttendance : List AttendanceRecord) :
    ValidationResult :=
  let errors0 : List String := []
  let errors1 :=
    if !isWithinInternshipPeriod date internshipStartDate internshipEndDate
    then errors0 ++ ["Date is outside internship period"] else errors0
  let wd := isValidWorkingDay date holidays
  let errors2 :=
    if !wd.isValid then errors1 ++ [wd.reason.getD "Not a working day"]
    else errors1
  let errors3 :=
    if existingAttendance.any (fun a => a.date == date)
    then errors2 ++ ["Attendance already marked for this date"] else errors2
  let weekWorkingDays := getWorkingDaysInWeek date holidays
  let weekAttendance :=
    existingAttendance.filter (fun a => weekWorkingDays.contains a.date)
  let errors4 :=
    if daysPerWeekAllowed ≤ weekAttendance.length
    then errors3 ++ [weeklyLimitMessage daysPerWeekAllowed] else errors3
  ⟨errors4.isEmpty, errors4⟩

-- Happy-path scenario from the specification: Monday 2024-03-04,
-- policy 2024-03-01 .. 2024-08-31, five days allowed, nothing existing.
example :
    validateAttendanceMarkable "s1" (mkDate 2024 3 4) 5 (mkDate 2024 3 1)
      (mkDate 2024 8 31) [] [] = ⟨true, []⟩ := by decide

/-!
Custom working-day override variant (the `WorkingDaysConfig` based
`isValidWorkingDay` of the custom working days utility).  In that code
the internship-period checks compare "YYYY-MM-DD" strings
lexicographically, which agrees with epoch-day order for canonical
date strings.
-/

/-- Embeds the `WorkingDaysConfig` interface of the custom working days
utility. -/
structure WorkingDaysConfig where
  daysPerWeek : Nat
  customDays : Option (List String)
  internshipStartDate : Int
  internshipEndDate : Int
deriving DecidableEq, Repr

/-- Embeds the `WorkingDaysConfig` variant of `isValidWorkingDay`:
period check, holiday check, then either the custom weekday-name set
(when configured and non-empty) or the default weekend rule. -/
def isValidWorkingDayCfg (date : Int) (config : WorkingDaysConfig)
    (holidays : List Int) : WorkingDayCheck :=
  if date < config.internshipStartDate then
    ⟨false, some "Date is before internship start date"⟩
  else if config.internshipEndDate < date then
    ⟨false, some "Date is after internship end date"⟩
  else if holidays.contains date then
    ⟨false, some "Date is a holiday"⟩
  else
    let dayOfWeek := (date + 4) % 7
    let dayName := getDayName date
    let customDays := config.customDays.getD []
    if 0 < customDays.length then
      if !customDays.contains dayName then
        ⟨false, some (dayName ++ " is not a working day. Working days: "
          ++ String.intercalate ", " customDays)⟩
      else ⟨true, none⟩
    else
      if dayOfWeek == 0 || dayOfWeek == 6 then
        ⟨false, some "Weekends are not working days"⟩
      else ⟨true, none⟩

-- A Saturday in the custom set is a working day; a Tuesday outside the
-- set is not.
example :
    (isValidWorkingDayCfg (mkDate 2024 3 9)
      ⟨2, some ["Monday", "Saturday"], mkDate 2024 3 1, mkDate 2024 8 31⟩
      []).isValid = true := by decide
example :
    (isValidWorkingDayCfg (mkDate 2024 3 5)
      ⟨2, some ["Monday", "Saturday"], mkDate 2024 3 1, mkDate 2024 8 31⟩
      []).isValid = false := by decide

/-!
JavaScript-string-level embedding, used to reason about structurally
invalid (unparsable) date strings.  A date string is carried as the raw
`String` (used by `===` comparisons and `includes` membership) together
with the `Option Int` result of `new Date(raw)`: `some n` when parsing
yields the valid UTC date with epoch day `n`, `none` when it yields an
Invalid Date (whose `getTime()` is NaN).  Every comparison against NaN
is false, and `Date.prototype.toISOString` on an Invalid Date throws a
RangeError ("Invalid time value"), modelled as `Except.error`.
-/

/-- A date string as the engine receives it: the raw text plus the
result of `new Date(raw)`. -/
structure JSDateStr where
  raw : String
  parsed : Option Int
deriving DecidableEq, Repr

/-- An `existingAttendance` element at string level. -/
structure JSAttendanceRecord where
  date : String
  status : AttStatus
deriving DecidableEq, Repr

/-- Civil calendar date (year, month, day) of an epoch-day number,
following the standard Gregorian era decomposition. -/
def civilFromDays (z : Int) : Int × Int × Int :=
  let zs := z + 719468
  let era := zs.fdiv 146097
  let doe := zs - era * 146097
  let yoe := (doe - doe / 1460 + doe / 36524 - doe / 146096) / 365
  let y := yoe + era * 400
  let doy := doe - (365 * yoe + yoe / 4 - yoe / 100)
  let mp := (5 * doy + 2) / 153
  let d := doy - (153 * mp + 2) / 5 + 1
  let m := mp + (if mp < 10 then 3 else -9)
  (y + (if m ≤ 2 then 1 else 0), m, d)

/-- Zero-padded decimal rendering of a field of an ISO date. -/
def padNum (width : Nat) (n : Int) : String :=
  let s := toString n.toNat
  String.mk (List.replicate (width - s.length) '0') ++ s

/-- The canonical "YYYY-MM-DD" text produced by
`toISOString().split("T")[0]` on a valid date. -/
def toISODate (n : Int) : String :=
  let c := civilFromDays n
  padNum 4 c.1 ++ "-" ++ padNum 2 c.2.1 ++ "-" ++ padNum 2 c.2.2

example : toISODate (mkDate 2024 3 5) = "2024-03-05" := by decide
example : toISODate 0 = "1970-01-01" := by decide

/-- String-level `isWithinInternshipPeriod`: `getTime()` comparisons;
any NaN operand makes a comparison false. -/
def isWithinInternshipPeriodJS (date startDate endDate : Option Int) : Bool :=
  match date, startDate, endDate with
  | some d, some s, some e => decide (s ≤ d) && decide (d ≤ e)
  | _, _, _ => false

/-- String-level `isWeekend`: `getDay()` of an Invalid Date is NaN and
equals neither 0 nor 6. -/
def isWeekendJS (date : Option Int) : Bool :=
  match date with
  | some n => ((n + 4) % 7 == 0) || ((n + 4) % 7 == 6)
  | none => false

/-- String-level `isValidWorkingDay`: weekend check on the parsed
value, holiday membership on the raw string. -/
def isValidWorkingDayJS (raw : String) (parsed : Option Int)
    (holidays : List String) : WorkingDayCheck :=
  if isWeekendJS parsed then
    ⟨false, some "Cannot mark attendance on weekends"⟩
  else if holidays.contains raw then
    ⟨false, some "Cannot mark attendance on holidays"⟩
  else
    ⟨true, none⟩

/-- String-level `getWorkingDaysInRange`.  The loop guard
`current <= end` is false whenever either bound is an Invalid Date, so
the loop body (and its `toISOString`) is never reached and the result
is empty; on valid bounds each visited day is rendered canonically, so
its re-parse in `isWeekend` yields the day itself. -/
def getWorkingDaysInRangeJS (startDate endDate : Option Int)
    (holidays : List String) : List String :=
  match startDate, endDate with
  | some s, some e =>
    ((dateRange s e).filter
      (fun n => !isWeekendJS (some n) && !holidays.contains (toISODate n))).map
      toISODate
  | _, _ => []

/-- String-level `getWorkingDaysInWeek`: on an Invalid Date,
`monday.toISOString()` throws a RangeError before any range is built. -/
def getWorkingDaysInWeekJS (date : Option Int) (holidays : List String) :
    Except String (List String) :=
  match date with
  | none => Except.error "Invalid time value"
  | some n =>
    let dayOfWeek := (n + 4) % 7
    let monday := n - dayOfWeek + 1
    let friday := monday + 4
    Except.ok (getWorkingDaysInRangeJS (some monday) (some friday) holidays)

/-- String-level `validateAttendanceMarkable`: identical check chain;
the weekly-limit step propagates the RangeError thrown inside
`getWorkingDaysInWeek` on an unparsable date. -/
def validateAttendanceMarkableJS (studentId : String) (date : JSDateStr)
    (daysPerWeekAllowed : Nat) (internshipStartDate internshipEndDate : JSDateStr)
    (holidays : List String) (existingAttendance : List JSAttendanceRecord) :
    Except String ValidationResult :=
  let errors0 : List String := []
  let errors1 :=
    if !isWithinInternshipPeriodJS date.parsed internshipStartDate.parsed
        internshipEndDate.parsed
    then errors0 ++ ["Date is outside internship period"] else errors0
  let wd := isValidWorkingDayJS date.raw date.parsed holidays
  let errors2 :=
    if !wd.isValid then errors1 ++ [wd.reason.getD "Not a working day"]
    else errors1
  let errors3 :=
    if existingAttendance.any (fun a => a.date == date.raw)
    then errors2 ++ ["Attendance already marked for this date"] else errors2
  match getWorkingDaysInWeekJS date.parsed holidays with
  | Except.error msg => Except.error msg
  | Except.ok weekWorkingDays =>
    let weekAttendance :=
      existingAttendance.filter (fun a => weekWorkingDays.contains a.date)
    let errors4 :=
      if daysPerWeekAllowed ≤ weekAttendance.length
      then errors3 ++ [weeklyLimitMessage daysPerWeekAllowed] else errors3
    Except.ok ⟨errors4.isEmpty, errors4⟩

example :
    validateAttendanceMarkableJS "s1" ⟨"2024-03-04", some (mkDate 2024 3 4)⟩ 5
      ⟨"2024-03-01", some (mkDate 2024 3 1)⟩
      ⟨"2024-08-31", some (mkDate 2024 8 31)⟩ [] [] =
      Except.ok ⟨true, []⟩ := by rfl

/-!  Helper lemmas shared by the claim theorems.  -/

/-- The `errors` array built by `validateAttendanceMarkable` is the
concatenation of the four checks' contributions, in check order. -/
theorem validateAttendanceMarkable_errors (studentId : String) (date : Int)
    (daysPerWeekAllowed : Nat) (internshipStartDate internshipEndDate : Int)
    (holidays : List Int) (existingAttendance : List AttendanceRecord) :
    (validateAttendanceMarkable studentId date daysPerWeekAllowed
      internshipStartDate internshipEndDate holidays
      existingAttendance).errors =
      (if isWithinInternshipPeriod date internshipStartDate internshipEndDate
        then [] else ["Date is outside internship period"])
      ++ (if (isValidWorkingDay date holidays).isValid then []
        else [(isValidWorkingDay date holidays).reason.getD "Not a working day"])
      ++ (if existingAttendance.any (fun a => a.date == date)
        then ["Attendance already marked for this date"] else [])
      ++ (if daysPerWeekAllowed ≤ (existingAttendance.filter
            (fun a => (getWorkingDaysInWeek date holidays).contains
              a.date)).length
        then [weeklyLimitMessage daysPerWeekAllowed] else []) := by
  unfold validateAttendanceMarkable
  cases h1 : isWithinInternshipPeriod date internshipStartDate internshipEndDate <;>
    cases h2 : (isValidWorkingDay date holidays).isValid <;>
    cases h3 : existingAttendance.any (fun a => a.date == date) <;>
    simp [h1, h2, h3] <;> split <;> simp

/-- The validity flag is the emptiness of the `errors` array. -/
theorem validateAttendanceMarkable_isValid (studentId : String) (date : Int)
    (daysPerWeekAllowed : Nat) (internshipStartDate internshipEndDate : Int)
    (holidays : List Int) (existingAttendance : List AttendanceRecord) :
    (validateAttendanceMarkable studentId date daysPerWeekAllowed
      internshipStartDate internshipEndDate holidays
      existingAttendance).isValid =
    (validateAttendanceMarkable studentId date daysPerWeekAllowed
      internshipStartDate internshipEndDate holidays
      existingAttendance).errors.isEmpty := rfl

/-- Length of the weekly-limit message. -/
theorem weeklyLimitMessage_length (n : Nat) :
    (weeklyLimitMessage n).length = 57 + (toString n).length := by
  unfold weeklyLimitMessage
  rw [String.length_append, String.length_append]
  have h1 : ("Weekly attendance limit exceeded (" : String).length = 34 := by
    decide
  have h2 : (" days per week allowed)" : String).length = 23 := by decide
  omega

/-- The weekly-limit message differs from every string shorter than 57
characters, whatever the interpolated limit is. -/
theorem weeklyLimitMessage_ne (n : Nat) (s : String) (hs : s.length < 57) :
    weeklyLimitMessage n ≠ s := by
  intro h
  have hl := congrArg String.length h
  rw [weeklyLimitMessage_length] at hl
  omega

/-- The weekly-limit message is never the message contributed by the
working-day check. -/
theorem weeklyLimitMessage_ne_workingDayReason (n : Nat) (d : Int)
    (H : List Int) :
    weeklyLimitMessage n ≠ (isValidWorkingDay d H).reason.getD
      "Not a working day" := by
  unfold isValidWorkingDay
  split
  · exact weeklyLimitMessage_ne n _ (by decide)
  · split
    · exact weeklyLimitMessage_ne n _ (by decide)
    · exact weeklyLimitMessage_ne n _ (by decide)

/-- Membership in the inclusive day enumeration. -/
theorem mem_dateRange (startDate endDate x : Int) :
    x ∈ dateRange startDate endDate ↔ startDate ≤ x ∧ x ≤ endDate := by
  unfold dateRange
  simp only [List.mem_map, List.mem_range]
  constructor
  · rintro ⟨i, hi, rfl⟩
    omega
  · intro h
    exact ⟨(x - startDate).toNat, by omega, by omega⟩

/-- The inclusive day enumeration is strictly ascending. -/
theorem dateRange_pairwise (startDate endDate : Int) :
    (dateRange startDate endDate).Pairwise (· < ·) := by
  unfold dateRange
  rw [List.pairwise_map]
  refine (List.pairwise_lt_range _).imp ?_
  intro a b hab
  omega

/-- The fuel-driven logarithm brackets its argument between consecutive
powers of two once the fuel dominates the argument. -/
theorem natLog2Aux_spec (fuel : Nat) : ∀ n : Nat, 1 ≤ n → n ≤ fuel →
    2 ^ natLog2Aux n fuel ≤ n ∧ n < 2 ^ (natLog2Aux n fuel + 1) := by
  induction fuel with
  | zero =>
    intro n h1 h2
    exact absurd h2 (by omega)
  | succ fuel ih =>
    intro n h1 h2
    by_cases hn : n < 2
    · have hn1 : n = 1 := by omega
      subst hn1
      norm_num [natLog2Aux]
    · have hrec := ih (n / 2) (by omega) (by omega)
      simp only [natLog2Aux, if_neg hn]
      set L := natLog2Aux (n / 2) fuel with hL
      have e1 : 2 ^ (L + 1) = 2 * 2 ^ L := by ring
      have e2 : 2 ^ (L + 1 + 1) = 2 * 2 ^ (L + 1) := by ring
      omega

/-- Power-of-two bracket for `natLog2`. -/
theorem natLog2_spec (n : Nat) (h : 1 ≤ n) :
    2 ^ natLog2 n ≤ n ∧ n < 2 ^ (natLog2 n + 1) :=
  natLog2Aux_spec n n h le_rfl

/-- Nearest-integer rounding of a fraction errs by at most one half. -/
theorem rneFrac_err (a b : Nat) (hb : 0 < b) :
    |(rneFrac a b : ℚ) - (a : ℚ) / b| ≤ 1 / 2 := by
  have hbQ : (0 : ℚ) < b := by exact_mod_cast hb
  have hmod : a % b < b := Nat.mod_lt a hb
  have ha : (a : ℚ) = (b : ℚ) * ((a / b : ℕ) : ℚ) + ((a % b : ℕ) : ℚ) := by
    exact_mod_cast (Nat.div_add_mod a b).symm
  have hq : (a : ℚ) / b = ((a / b : ℕ) : ℚ) + ((a % b : ℕ) : ℚ) / b := by
    rw [ha]
    field_simp
    ring
  have hr0 : (0 : ℚ) ≤ ((a % b : ℕ) : ℚ) / b := by positivity
  have hr1 : ((a % b : ℕ) : ℚ) / b < 1 := by
    rw [div_lt_one hbQ]
    exact_mod_cast hmod
  unfold rneFrac
  split_ifs with h1 h2 h3
  · have h1Q : (1 : ℚ) / 2 < ((a % b : ℕ) : ℚ) / b := by
      rw [div_lt_div_iff (by norm_num) hbQ]
      have : (b : ℚ) < 2 * ((a % b : ℕ) : ℚ) := by exact_mod_cast h1
      linarith
    rw [hq, abs_le]
    push_cast
    constructor <;> linarith
  · have h2Q : ((a % b : ℕ) : ℚ) / b < 1 / 2 := by
      rw [div_lt_div_iff hbQ (by norm_num)]
      have : 2 * ((a % b : ℕ) : ℚ) < b := by exact_mod_cast h2
      linarith
    rw [hq, abs_le]
    constructor <;> linarith
  · have h2Q : ((a % b : ℕ) : ℚ) / b ≤ 1 / 2 := by
      rw [div_le_div_iff hbQ (by norm_num)]
      have : 2 * ((a % b : ℕ) : ℚ) ≤ (b : ℚ) := by
        exact_mod_cast Nat.le_of_not_lt h1
      linarith
    rw [hq, abs_le]
    constructor <;> linarith
  · have h1Q : (1 : ℚ) / 2 ≤ ((a % b : ℕ) : ℚ) / b := by
      rw [div_le_div_iff (by norm_num) hbQ]
      have : (b : ℚ) ≤ 2 * ((a % b : ℕ) : ℚ) := by
        exact_mod_cast Nat.le_of_not_lt h2
      linarith
    rw [hq, abs_le]
    push_cast
    constructor <;> linarith

/-- A nonnegative integer power of two, written with a natural
exponent. -/
theorem zpow_toNat_of_nonneg {e : ℤ} (he : 0 ≤ e) :
    (2 : ℚ) ^ e = ((2 ^ e.toNat : ℕ) : ℚ) := by
  calc (2 : ℚ) ^ e = (2 : ℚ) ^ ((e.toNat : ℕ) : ℤ) := by
        rw [Int.toNat_of_nonneg he]
    _ = (2 : ℚ) ^ (e.toNat : ℕ) := zpow_natCast _ _
    _ = ((2 ^ e.toNat : ℕ) : ℚ) := by norm_cast

/-- A negative integer power of two, written as the inverse of a
natural power. -/
theorem zpow_neg_toNat_of_neg {e : ℤ} (he : e < 0) :
    (2 : ℚ) ^ e = (((2 ^ (-e).toNat : ℕ) : ℚ))⁻¹ := by
  have h : (((-e).toNat : ℕ) : ℤ) = -e := Int.toNat_of_nonneg (by omega)
  calc (2 : ℚ) ^ e = (2 : ℚ) ^ (-(((-e).toNat : ℕ) : ℤ)) := by
        rw [h, neg_neg]
    _ = ((2 : ℚ) ^ ((((-e).toNat : ℕ)) : ℤ))⁻¹ := by rw [zpow_neg]
    _ = ((2 : ℚ) ^ ((-e).toNat : ℕ))⁻¹ := by rw [zpow_natCast]
    _ = (((2 ^ (-e).toNat : ℕ) : ℚ))⁻¹ := by norm_cast

/-- Cross-multiplied form of comparing a fraction with a power of two
(strict side). -/
theorem qlt_two_pow_iff (a b : Nat) (hb : 0 < b) (e : ℤ) :
    (a : ℚ) / b < (2 : ℚ) ^ e ↔ a * 2 ^ (-e).toNat < b * 2 ^ e.toNat := by
  have hbQ : (0 : ℚ) < b := by exact_mod_cast hb
  rcases le_or_lt 0 e with he | he
  · have h0 : (-e).toNat = 0 := Int.toNat_of_nonpos (by omega)
    rw [h0, pow_zero, Nat.mul_one, zpow_toNat_of_nonneg he, div_lt_iff hbQ,
      mul_comm ((2 ^ e.toNat : ℕ) : ℚ) (b : ℚ)]
    exact_mod_cast Iff.rfl
  · have h0 : e.toNat = 0 := Int.toNat_of_nonpos (by omega)
    have hX : (0 : ℚ) < ((2 ^ (-e).toNat : ℕ) : ℚ) := by positivity
    rw [h0, pow_zero, Nat.mul_one, zpow_neg_toNat_of_neg he, inv_eq_one_div,
      div_lt_div_iff hbQ hX, one_mul]
    exact_mod_cast Iff.rfl

/-- Cross-multiplied form of comparing a fraction with a power of two
(non-strict side). -/
theorem qle_two_pow_iff (a b : Nat) (hb : 0 < b) (e : ℤ) :
    (2 : ℚ) ^ e ≤ (a : ℚ) / b ↔ b * 2 ^ e.toNat ≤ a * 2 ^ (-e).toNat := by
  have hbQ : (0 : ℚ) < b := by exact_mod_cast hb
  rcases le_or_lt 0 e with he | he
  · have h0 : (-e).toNat = 0 := Int.toNat_of_nonpos (by omega)
    rw [h0, pow_zero, Nat.mul_one, zpow_toNat_of_nonneg he, le_div_iff hbQ,
      mul_comm ((2 ^ e.toNat : ℕ) : ℚ) (b : ℚ)]
    exact_mod_cast Iff.rfl
  · have h0 : e.toNat = 0 := Int.toNat_of_nonpos (by omega)
    have hX : (0 : ℚ) < ((2 ^ (-e).toNat : ℕ) : ℚ) := by positivity
    rw [h0, pow_zero, Nat.mul_one, zpow_neg_toNat_of_neg he, inv_eq_one_div,
      div_le_div_iff hX hbQ, one_mul]
    exact_mod_cast Iff.rfl

/-- The corrected bit-length estimate really is the floor of the base-2
logarithm of the fraction. -/
theorem log2floorFrac_spec (a b : Nat) (ha : 0 < a) (hb : 0 < b) :
    (2 : ℚ) ^ log2floorFrac a b ≤ (a : ℚ) / b
    ∧ (a : ℚ) / b < (2 : ℚ) ^ (log2floorFrac a b + 1) := by
  have hbQ : (0 : ℚ) < b := by exact_mod_cast hb
  have h2ne : (2 : ℚ) ≠ 0 := by norm_num
  obtain ⟨ha1, ha2⟩ := natLog2_spec a ha
  obtain ⟨hb1, hb2⟩ := natLog2_spec b hb
  unfold log2floorFrac
  set La := natLog2 a with hLa
  set Lb := natLog2 b with hLb
  set e0 : ℤ := (La : ℤ) - (Lb : ℤ) with he0
  have haQ : (2 : ℚ) ^ (La : ℕ) ≤ (a : ℚ) := by exact_mod_cast ha1
  have haQ2 : (a : ℚ) < 2 ^ (La + 1 : ℕ) := by exact_mod_cast ha2
  have hbQ1 : (2 : ℚ) ^ (Lb : ℕ) ≤ (b : ℚ) := by exact_mod_cast hb1
  have hbQ2 : (b : ℚ) < 2 ^ (Lb + 1 : ℕ) := by exact_mod_cast hb2
  have hcLb1 : (2 : ℚ) ^ ((Lb : ℤ) + 1) = (2 : ℚ) ^ (Lb + 1 : ℕ) := by
    rw [show ((Lb : ℤ) + 1) = ((Lb + 1 : ℕ) : ℤ) by push_cast; ring,
      zpow_natCast]
  have hcLa1 : (2 : ℚ) ^ ((La : ℤ) + 1) = (2 : ℚ) ^ (La + 1 : ℕ) := by
    rw [show ((La : ℤ) + 1) = ((La + 1 : ℕ) : ℤ) by push_cast; ring,
      zpow_natCast]
  have key1 : (2 : ℚ) ^ (e0 - 1) < (a : ℚ) / b := by
    rw [lt_div_iff hbQ]
    calc (2 : ℚ) ^ (e0 - 1) * b
        < 2 ^ (e0 - 1) * 2 ^ (Lb + 1 : ℕ) := by
          exact mul_lt_mul_of_pos_left hbQ2 (by positivity)
      _ = 2 ^ (La : ℕ) := by
          rw [← hcLb1, ← zpow_add₀ h2ne,
            show (e0 - 1) + ((Lb : ℤ) + 1) = ((La : ℕ) : ℤ) by omega,
            zpow_natCast]
      _ ≤ a := haQ
  have key2 : (a : ℚ) / b < (2 : ℚ) ^ (e0 + 1) := by
    rw [div_lt_iff hbQ]
    calc (a : ℚ) < 2 ^ (La + 1 : ℕ) := haQ2
      _ = 2 ^ (e0 + 1) * 2 ^ (Lb : ℕ) := by
          rw [← hcLa1, ← zpow_natCast (2 : ℚ) Lb, ← zpow_add₀ h2ne,
            show ((La : ℤ) + 1) = (e0 + 1) + (Lb : ℤ) by omega]
      _ ≤ 2 ^ (e0 + 1) * b := by
          exact mul_le_mul_of_nonneg_left hbQ1 (by positivity)
  split_ifs with hc1 hc2
  · have hq1 : (a : ℚ) / b < (2 : ℚ) ^ e0 := (qlt_two_pow_iff a b hb e0).mpr hc1
    refine ⟨key1.le, ?_⟩
    rw [sub_add_cancel]
    exact hq1
  · have hq2 : (2 : ℚ) ^ (e0 + 1) ≤ (a : ℚ) / b :=
      (qle_two_pow_iff a b hb (e0 + 1)).mpr hc2
    exact absurd hq2 (not_le.mpr key2)
  · refine ⟨?_, ?_⟩
    · exact not_lt.mp (fun h => hc1 ((qlt_two_pow_iff a b hb e0).mp h))
    · exact not_le.mp (fun h => hc2 ((qle_two_pow_iff a b hb (e0 + 1)).mp h))

/-- Scaling a fraction by a power of two, in cross-multiplied form. -/
theorem shiftFrac (a b : Nat) (hb : 0 < b) (k : ℤ) :
    ((a * 2 ^ k.toNat : ℕ) : ℚ) / ((b * 2 ^ (-k).toNat : ℕ) : ℚ) =
      (a : ℚ) / b * (2 : ℚ) ^ k := by
  have hbQ : (0 : ℚ) < b := by exact_mod_cast hb
  have hbne : (b : ℚ) ≠ 0 := ne_of_gt hbQ
  rcases le_or_lt 0 k with hk | hk
  · have h0 : (-k).toNat = 0 := Int.toNat_of_nonpos (by omega)
    rw [h0, zpow_toNat_of_nonneg hk]
    push_cast
    field_simp
  · have h0 : k.toNat = 0 := Int.toNat_of_nonpos (by omega)
    have hX : ((2 ^ (-k).toNat : ℕ) : ℚ) ≠ 0 := by positivity
    rw [h0, zpow_neg_toNat_of_neg hk]
    push_cast at hX ⊢
    field_simp

/-- The float64 division errs from the exact quotient by at most one
unit in the last place of the significand, i.e. a relative `2 ^ (-53)`. -/
theorem fl64Frac_err (a b : Nat) (ha : 0 < a) (hb : 0 < b) :
    |((fl64Frac a b).1 : ℚ) * (2 : ℚ) ^ (fl64Frac a b).2 - (a : ℚ) / b| ≤
      (a : ℚ) / b * (2 : ℚ) ^ (-(53 : ℤ)) := by
  have h2ne : (2 : ℚ) ≠ 0 := by norm_num
  unfold fl64Frac
  rw [if_neg (by omega : ¬(a = 0 ∨ b = 0))]
  set e := log2floorFrac a b with he
  obtain ⟨hbr1, hbr2⟩ := log2floorFrac_spec a b ha hb
  set k : ℤ := 52 - e with hk
  have hb2 : 0 < b * 2 ^ (-k).toNat := by positivity
  have herr := rneFrac_err (a * 2 ^ k.toNat) (b * 2 ^ (-k).toNat) hb2
  rw [shiftFrac a b hb k] at herr
  have hkk : (2 : ℚ) ^ k * (2 : ℚ) ^ (e - 52) = 1 := by
    rw [← zpow_add₀ h2ne, show k + (e - 52) = 0 by omega, zpow_zero]
  have hmain :
      ((rneFrac (a * 2 ^ k.toNat) (b * 2 ^ (-k).toNat) : ℕ) : ℚ) *
          (2 : ℚ) ^ (e - 52) - (a : ℚ) / b =
        (((rneFrac (a * 2 ^ k.toNat) (b * 2 ^ (-k).toNat) : ℕ) : ℚ) -
          (a : ℚ) / b * (2 : ℚ) ^ k) * (2 : ℚ) ^ (e - 52) := by
    rw [sub_mul, mul_assoc, hkk, mul_one]
  push_cast
  rw [hmain, abs_mul, abs_of_pos (show (0 : ℚ) < (2 : ℚ) ^ (e - 52) by positivity)]
  calc |((rneFrac (a * 2 ^ k.toNat) (b * 2 ^ (-k).toNat) : ℕ) : ℚ) -
        (a : ℚ) / b * (2 : ℚ) ^ k| * (2 : ℚ) ^ (e - 52)
      ≤ 1 / 2 * (2 : ℚ) ^ (e - 52) := by
        exact mul_le_mul_of_nonneg_right herr (by positivity)
    _ = (2 : ℚ) ^ (e - 53) := by
        rw [show (1 : ℚ) / 2 = (2 : ℚ) ^ (-1 : ℤ) by norm_num,
          ← zpow_add₀ h2ne]
        congr 1
        omega
    _ ≤ (a : ℚ) / b * (2 : ℚ) ^ (-(53 : ℤ)) := by
        rw [show (e - 53 : ℤ) = e + -53 by omega, zpow_add₀ h2ne]
        exact mul_le_mul_of_nonneg_right hbr1 (by positivity)

/-- Binary64 re-rounding of an integer times a power of two errs by a
relative `2 ^ (-53)`. -/
theorem fl64Z_err (m e : Int) (hm : 0 < m) :
    |((fl64Z m e).1 : ℚ) * (2 : ℚ) ^ (fl64Z m e).2 - (m : ℚ) * (2 : ℚ) ^ e| ≤
      (m : ℚ) * (2 : ℚ) ^ e * (2 : ℚ) ^ (-(53 : ℤ)) := by
  have h2ne : (2 : ℚ) ≠ 0 := by norm_num
  have hmQ : (0 : ℚ) < (m : ℚ) := by exact_mod_cast hm
  unfold fl64Z
  rw [if_neg hm.ne']
  by_cases hL : natLog2 m.toNat ≤ 52
  · rw [if_pos hL]
    rw [sub_self, abs_zero]
    positivity
  · rw [if_neg hL]
    set L := natLog2 m.toNat with hLdef
    have hm1 : 1 ≤ m.toNat := by omega
    obtain ⟨hs1, hs2⟩ := natLog2_spec m.toNat hm1
    have hcast : ((m.toNat : ℕ) : ℚ) = (m : ℚ) := by
      exact_mod_cast Int.toNat_of_nonneg hm.le
    have hs1Q : (2 : ℚ) ^ (L : ℕ) ≤ (m : ℚ) := by
      rw [← hcast]
      exact_mod_cast hs1
    have herr := rneFrac_err m.toNat (2 ^ (L - 52)) (by positivity)
    have hden : ((2 ^ (L - 52) : ℕ) : ℚ) = (2 : ℚ) ^ ((L : ℤ) - 52) := by
      rw [show (L : ℤ) - 52 = ((L - 52 : ℕ) : ℤ) by omega, zpow_natCast]
      norm_cast
    have hfrac : ((m.toNat : ℕ) : ℚ) / ((2 ^ (L - 52) : ℕ) : ℚ) =
        (m : ℚ) * (2 : ℚ) ^ (-((L : ℤ) - 52)) := by
      rw [hcast, hden, zpow_neg]
      ring
    rw [hfrac] at herr
    have hkk : (2 : ℚ) ^ (-((L : ℤ) - 52)) * (2 : ℚ) ^ (e + (L : ℤ) - 52) =
        (2 : ℚ) ^ e := by
      rw [← zpow_add₀ h2ne]
      congr 1
      omega
    have hmain :
        ((rneFrac m.toNat (2 ^ (L - 52)) : ℕ) : ℚ) *
            (2 : ℚ) ^ (e + (L : ℤ) - 52) - (m : ℚ) * (2 : ℚ) ^ e =
          (((rneFrac m.toNat (2 ^ (L - 52)) : ℕ) : ℚ) -
            (m : ℚ) * (2 : ℚ) ^ (-((L : ℤ) - 52))) *
            (2 : ℚ) ^ (e + (L : ℤ) - 52) := by
      rw [sub_mul, mul_assoc, hkk]
    push_cast
    rw [hmain, abs_mul,
      abs_of_pos (show (0 : ℚ) < (2 : ℚ) ^ (e + (L : ℤ) - 52) by positivity)]
    calc |((rneFrac m.toNat (2 ^ (L - 52)) : ℕ) : ℚ) -
          (m : ℚ) * (2 : ℚ) ^ (-((L : ℤ) - 52))| * (2 : ℚ) ^ (e + (L : ℤ) - 52)
        ≤ 1 / 2 * (2 : ℚ) ^ (e + (L : ℤ) - 52) := by
          exact mul_le_mul_of_nonneg_right herr (by positivity)
      _ = (2 : ℚ) ^ (L : ℤ) * (2 : ℚ) ^ (e + -53) := by
          rw [show (1 : ℚ) / 2 = (2 : ℚ) ^ (-1 : ℤ) by norm_num,
            ← zpow_add₀ h2ne, ← zpow_add₀ h2ne]
          congr 1
          omega
      _ ≤ (m : ℚ) * (2 : ℚ) ^ (e + -53) := by
          refine mul_le_mul_of_nonneg_right ?_ (by positivity)
          rw [zpow_natCast]
          exact hs1Q
      _ = (m : ℚ) * (2 : ℚ) ^ e * (2 : ℚ) ^ (-(53 : ℤ)) := by
          rw [mul_assoc, ← zpow_add₀ h2ne]

/-- `jsRound` computes the floor of the value plus one half. -/
theorem jsRound_eq (m e : Int) (hm : 0 ≤ m) :
    jsRound m e = ⌊(m : ℚ) * (2 : ℚ) ^ e + 1 / 2⌋ := by
  unfold jsRound
  split_ifs with he
  · have h2 : (m : ℚ) * (2 : ℚ) ^ e = ((m * 2 ^ e.toNat : ℤ) : ℚ) := by
      rw [zpow_toNat_of_nonneg he]
      push_cast
      ring
    rw [h2, Int.floor_int_add]
    norm_num
  · have hd1 : 1 ≤ (-e).toNat := by omega
    have hdQ : (0 : ℚ) < ((2 ^ (-e).toNat : ℕ) : ℚ) := by positivity
    have hdQ2 : (0 : ℚ) < ((2 ^ ((-e).toNat + 1) : ℕ) : ℚ) := by positivity
    have hzp : (2 : ℚ) ^ e = (((2 ^ (-e).toNat : ℕ) : ℚ))⁻¹ :=
      zpow_neg_toNat_of_neg (by omega)
    have hval : (m : ℚ) * (2 : ℚ) ^ e + 1 / 2 =
        ((2 * m + 2 ^ (-e).toNat : ℤ) : ℚ) / ((2 ^ ((-e).toNat + 1) : ℕ) : ℚ) := by
      rw [hzp]
      field_simp
      push_cast
      ring
    rw [hval, Rat.floor_intCast_div_natCast]

/-!  Claim theorems.  -/

/-- C1: `validateAttendanceMarkable` evaluates all four checks, its
`errors` list is the concatenation of the failed checks' violation
reasons in the fixed order range, working-day, duplicate, weekly quota
(passing checks contribute nothing), `isValid` holds exactly when the
list is empty, and an existing record on the prospective date forces
`isValid = false` with "Attendance already marked for this date" among
the errors. -/
theorem validateAttendanceMarkable_check_order_spec (studentId : String)
    (date : Int) (daysPerWeekAllowed : Nat)
    (internshipStartDate internshipEndDate : Int) (holidays : List Int)
    (existingAttendance : List AttendanceRecord) :
    (validateAttendanceMarkable studentId date daysPerWeekAllowed
      internshipStartDate internshipEndDate holidays
      existingAttendance).errors =
      (if isWithinInternshipPeriod date internshipStartDate internshipEndDate
        then [] else ["Date is outside internship period"])
      ++ (if (isValidWorkingDay date holidays).isValid then []
        else [(isValidWorkingDay date holidays).reason.getD "Not a working day"])
      ++ (if existingAttendance.any (fun a => a.date == date)
        then ["Attendance already marked for this date"] else [])
      ++ (if daysPerWeekAllowed ≤ (existingAttendance.filter
            (fun a => (getWorkingDaysInWeek date holidays).contains
              a.date)).length
        then [weeklyLimitMessage daysPerWeekAllowed] else [])
    ∧ ((validateAttendanceMarkable studentId date daysPerWeekAllowed
        internshipStartDate internshipEndDate holidays
        existingAttendance).isValid = true ↔
      (validateAttendanceMarkable studentId date daysPerWeekAllowed
        internshipStartDate internshipEndDate holidays
        existingAttendance).errors = [])
    ∧ ((∃ a ∈ existingAttendance, a.date = date) →
      (validateAttendanceMarkable studentId date daysPerWeekAllowed
        internshipStartDate internshipEndDate holidays
        existingAttendance).isValid = false
      ∧ "Attendance already marked for this date" ∈
        (validateAttendanceMarkable studentId date daysPerWeekAllowed
          internshipStartDate internshipEndDate holidays
          existingAttendance).errors) := by
  have hiff : (validateAttendanceMarkable studentId date daysPerWeekAllowed
      internshipStartDate internshipEndDate holidays
      existingAttendance).isValid = true ↔
      (validateAttendanceMarkable studentId date daysPerWeekAllowed
        internshipStartDate internshipEndDate holidays
        existingAttendance).errors = [] := by
    rw [validateAttendanceMarkable_isValid]
    exact List.isEmpty_iff
  refine ⟨validateAttendanceMarkable_errors studentId date daysPerWeekAllowed
    internshipStartDate internshipEndDate holidays existingAttendance,
    hiff, ?_⟩
  rintro ⟨a, ha, hd⟩
  have hany : existingAttendance.any (fun a => a.date == date) = true :=
    List.any_eq_true.mpr ⟨a, ha, by simp [hd]⟩
  have herr := validateAttendanceMarkable_errors studentId date
    daysPerWeekAllowed internshipStartDate internshipEndDate holidays
    existingAttendance
  have hmem : "Attendance already marked for this date" ∈
      (validateAttendanceMarkable studentId date daysPerWeekAllowed
        internshipStartDate internshipEndDate holidays
        existingAttendance).errors := by
    rw [herr]
    simp [hany]
  have hne : (validateAttendanceMarkable studentId date daysPerWeekAllowed
      internshipStartDate internshipEndDate holidays
      existingAttendance).errors ≠ [] := by
    intro h0
    rw [h0] at hmem
    exact absurd hmem (List.not_mem_nil _)
  refine ⟨?_, hmem⟩
  cases hv : (validateAttendanceMarkable studentId date daysPerWeekAllowed
      internshipStartDate internshipEndDate holidays
      existingAttendance).isValid
  · rfl
  · exact absurd (hiff.mp hv) hne

/-- Witness for C1: the duplicate-rejection scenario of the
specification, an existing Present record on 2024-03-05 and a new mark
on the same date. -/
theorem validateAttendanceMarkable_check_order_spec_witness :
    (validateAttendanceMarkable "s1" (mkDate 2024 3 5) 5 (mkDate 2024 3 1)
      (mkDate 2024 8 31) []
      [⟨mkDate 2024 3 5, AttStatus.present⟩]).isValid = false
    ∧ "Attendance already marked for this date" ∈
      (validateAttendanceMarkable "s1" (mkDate 2024 3 5) 5 (mkDate 2024 3 1)
        (mkDate 2024 8 31) []
        [⟨mkDate 2024 3 5, AttStatus.present⟩]).errors :=
  (validateAttendanceMarkable_check_order_spec "s1" (mkDate 2024 3 5) 5
    (mkDate 2024 3 1) (mkDate 2024 8 31) []
    [⟨mkDate 2024 3 5, AttStatus.present⟩]).2.2
    ⟨⟨mkDate 2024 3 5, AttStatus.present⟩, by simp, rfl⟩

/-- C3 (code bug evaluation): for the Sunday 2024-03-10 the code
returns the working days 2024-03-11 .. 2024-03-15 of the FOLLOWING
week — every returned day is strictly after the Sunday and none lies in
the Monday-anchored week 2024-03-04 .. 2024-03-08 containing it, the
week the specification prescribes. -/
theorem getWorkingDaysInWeek_sunday_bug :
    (mkDate 2024 3 10 + 4) % 7 = 0
    ∧ getWorkingDaysInWeek (mkDate 2024 3 10) [] =
      [mkDate 2024 3 11, mkDate 2024 3 12, mkDate 2024 3 13,
        mkDate 2024 3 14, mkDate 2024 3 15]
    ∧ (∀ x ∈ getWorkingDaysInWeek (mkDate 2024 3 10) [],
      ¬(mkDate 2024 3 4 ≤ x ∧ x ≤ mkDate 2024 3 8))
    ∧ (∀ x ∈ getWorkingDaysInWeek (mkDate 2024 3 10) [],
      mkDate 2024 3 10 < x) := by
  decide

/-- C4: the working-day check yields at most one reason; a weekend day
is reported as weekend regardless of holidays (weekend check first), a
non-weekend holiday as holiday; and the specification's
holiday-collision scenario (mark Monday 2024-03-04, holiday set
{2024-03-04}) yields invalid with exactly the holiday message. -/
theorem isValidWorkingDay_reason_spec :
    (∀ (d : Int) (H : List Int), isWeekend d = true →
      isValidWorkingDay d H = ⟨false, some "Cannot mark attendance on weekends"⟩)
    ∧ (∀ (d : Int) (H : List Int), isWeekend d = false → H.contains d = true →
      isValidWorkingDay d H = ⟨false, some "Cannot mark attendance on holidays"⟩)
    ∧ validateAttendanceMarkable "s1" (mkDate 2024 3 4) 5 (mkDate 2024 3 1)
        (mkDate 2024 8 31) [mkDate 2024 3 4] [] =
      ⟨false, ["Cannot mark attendance on holidays"]⟩ := by
  refine ⟨?_, ?_, by decide⟩
  · intro d H h
    simp [isValidWorkingDay, h]
  · intro d H h1 h2
    simp [isValidWorkingDay, h1, h2]
    simpa using h2

/-- Witness for C4: Saturday 2024-03-09 is reported as weekend even
when it is also a holiday, and the non-weekend holiday 2024-03-04 as
holiday. -/
theorem isValidWorkingDay_reason_spec_witness :
    isValidWorkingDay (mkDate 2024 3 9) [mkDate 2024 3 9] =
      ⟨false, some "Cannot mark attendance on weekends"⟩
    ∧ isValidWorkingDay (mkDate 2024 3 4) [mkDate 2024 3 4] =
      ⟨false, some "Cannot mark attendance on holidays"⟩ :=
  ⟨isValidWorkingDay_reason_spec.1 (mkDate 2024 3 9) [mkDate 2024 3 9]
    (by decide),
   isValidWorkingDay_reason_spec.2.1 (mkDate 2024 3 4) [mkDate 2024 3 4]
    (by decide) (by decide)⟩

/-- C5: `getWorkingDaysInRange` is strictly ascending, stays inside the
inclusive interval, contains neither weekend days nor holidays, and is
empty (not an error) on a reversed range. -/
theorem getWorkingDaysInRange_spec (startDate endDate : Int)
    (holidays : List Int) :
    (getWorkingDaysInRange startDate endDate holidays).Pairwise (· < ·)
    ∧ (∀ x ∈ getWorkingDaysInRange startDate endDate holidays,
      startDate ≤ x ∧ x ≤ endDate ∧ isWeekend x = false ∧ x ∉ holidays)
    ∧ (endDate < startDate →
      getWorkingDaysInRange startDate endDate holidays = []) := by
  refine ⟨?_, ?_, ?_⟩
  · exact List.Pairwise.sublist (List.filter_sublist _)
      (dateRange_pairwise startDate endDate)
  · intro x hx
    unfold getWorkingDaysInRange at hx
    rw [List.mem_filter] at hx
    obtain ⟨hmem, hpred⟩ := hx
    rw [mem_dateRange] at hmem
    simp only [Bool.and_eq_true, Bool.not_eq_true'] at hpred
    refine ⟨hmem.1, hmem.2, hpred.1, ?_⟩
    simpa using hpred.2
  · intro h
    unfold getWorkingDaysInRange dateRange
    have h0 : (endDate + 1 - startDate).toNat = 0 := by omega
    simp [h0]

/-- Witness for C5: a reversed range (start 2024-03-08, end 2024-03-04)
gives the empty sequence. -/
theorem getWorkingDaysInRange_spec_witness :
    getWorkingDaysInRange (mkDate 2024 3 8) (mkDate 2024 3 4) [] = [] :=
  (getWorkingDaysInRange_spec (mkDate 2024 3 8) (mkDate 2024 3 4) []).2.2
    (by decide)

/-- C2: the weekly-limit message appears in the errors exactly when the
number of existing records (any status) dated on a working day of the
week of the prospective date reaches `daysPerWeekAllowed`, and reaching
the inclusive cap rejects the mark. -/
theorem weeklyQuota_spec (studentId : String) (date : Int)
    (daysPerWeekAllowed : Nat) (internshipStartDate internshipEndDate : Int)
    (holidays : List Int) (existingAttendance : List AttendanceRecord) :
    (weeklyLimitMessage daysPerWeekAllowed ∈
      (validateAttendanceMarkable studentId date daysPerWeekAllowed
        internshipStartDate internshipEndDate holidays
        existingAttendance).errors ↔
      daysPerWeekAllowed ≤ (existingAttendance.filter
        (fun a => (getWorkingDaysInWeek date holidays).contains a.date)).length)
    ∧ (daysPerWeekAllowed ≤ (existingAttendance.filter
        (fun a => (getWorkingDaysInWeek date holidays).contains a.date)).length →
      (validateAttendanceMarkable studentId date daysPerWeekAllowed
        internshipStartDate internshipEndDate holidays
        existingAttendance).isValid = false) := by
  have herr := validateAttendanceMarkable_errors studentId date
    daysPerWeekAllowed internshipStartDate internshipEndDate holidays
    existingAttendance
  have hA : weeklyLimitMessage daysPerWeekAllowed ∉
      (if isWithinInternshipPeriod date internshipStartDate internshipEndDate
        then ([] : List String) else ["Date is outside internship period"]) := by
    split
    · simp
    · simp only [List.mem_singleton]
      exact weeklyLimitMessage_ne _ _ (by decide)
  have hB : weeklyLimitMessage daysPerWeekAllowed ∉
      (if (isValidWorkingDay date holidays).isValid then ([] : List String)
        else [(isValidWorkingDay date holidays).reason.getD
          "Not a working day"]) := by
    split
    · simp
    · simp only [List.mem_singleton]
      exact weeklyLimitMessage_ne_workingDayReason _ _ _
  have hC : weeklyLimitMessage daysPerWeekAllowed ∉
      (if existingAttendance.any (fun a => a.date == date)
        then ["Attendance already marked for this date"]
        else ([] : List String)) := by
    split
    · simp only [List.mem_singleton]
      exact weeklyLimitMessage_ne _ _ (by decide)
    · simp
  have hD : weeklyLimitMessage daysPerWeekAllowed ∈
      (if daysPerWeekAllowed ≤ (existingAttendance.filter
          (fun a => (getWorkingDaysInWeek date holidays).contains
            a.date)).length
        then [weeklyLimitMessage daysPerWeekAllowed]
        else ([] : List String)) ↔
      daysPerWeekAllowed ≤ (existingAttendance.filter
        (fun a => (getWorkingDaysInWeek date holidays).contains
          a.date)).length := by
    split
    · next hcond => exact iff_of_true (List.mem_singleton_self _) hcond
    · next hcond => exact iff_of_false (by simp) hcond
  have hiff : weeklyLimitMessage daysPerWeekAllowed ∈
      (validateAttendanceMarkable studentId date daysPerWeekAllowed
        internshipStartDate internshipEndDate holidays
        existingAttendance).errors ↔
      daysPerWeekAllowed ≤ (existingAttendance.filter
        (fun a => (getWorkingDaysInWeek date holidays).contains
          a.date)).length := by
    rw [herr]
    simp only [List.mem_append]
    constructor
    · rintro (((h | h) | h) | h)
      · exact absurd h hA
      · exact absurd h hB
      · exact absurd h hC
      · exact hD.mp h
    · intro h
      exact Or.inr (hD.mpr h)
  refine ⟨hiff, ?_⟩
  intro hcnt
  have hmem := hiff.mpr hcnt
  have hne : (validateAttendanceMarkable studentId date daysPerWeekAllowed
      internshipStartDate internshipEndDate holidays
      existingAttendance).errors ≠ [] := by
    intro h0
    rw [h0] at hmem
    exact absurd hmem (List.not_mem_nil _)
  cases hv : (validateAttendanceMarkable studentId date daysPerWeekAllowed
      internshipStartDate internshipEndDate holidays
      existingAttendance).isValid
  · rfl
  · exfalso
    rw [validateAttendanceMarkable_isValid, List.isEmpty_iff] at hv
    exact hne hv

/-- Witness for C2: the weekly-boundary scenario of the specification,
limit 2 and two existing marks in the Monday-to-Friday week containing
Thursday 2024-03-07. -/
theorem weeklyQuota_spec_witness :
    weeklyLimitMessage 2 ∈
      (validateAttendanceMarkable "s1" (mkDate 2024 3 7) 2 (mkDate 2024 3 1)
        (mkDate 2024 8 31) []
        [⟨mkDate 2024 3 4, AttStatus.present⟩,
          ⟨mkDate 2024 3 5, AttStatus.present⟩]).errors
    ∧ (validateAttendanceMarkable "s1" (mkDate 2024 3 7) 2 (mkDate 2024 3 1)
        (mkDate 2024 8 31) []
        [⟨mkDate 2024 3 4, AttStatus.present⟩,
          ⟨mkDate 2024 3 5, AttStatus.present⟩]).isValid = false :=
  ⟨(weeklyQuota_spec "s1" (mkDate 2024 3 7) 2 (mkDate 2024 3 1)
      (mkDate 2024 8 31) []
      [⟨mkDate 2024 3 4, AttStatus.present⟩,
        ⟨mkDate 2024 3 5, AttStatus.present⟩]).1.mpr (by decide),
   (weeklyQuota_spec "s1" (mkDate 2024 3 7) 2 (mkDate 2024 3 1)
      (mkDate 2024 8 31) []
      [⟨mkDate 2024 3 4, AttStatus.present⟩,
        ⟨mkDate 2024 3 5, AttStatus.present⟩]).2 (by decide)⟩

/-- C6 counterexample: at (5, 2) the code returns 250, outside 0..100
(the float64 computation 2.5 * 100 = 250 is exact, so the original
range clause fails), and at (201, 200) the float64 computation
(201/200) * 100 yields 100.49999999999999, whose `Math.round` is 100,
while the exact round(100 * 201 / 200) = round(100.5) is 101 — the
original equality clause fails too. -/
theorem calculateAttendancePercentage_not_bounded :
    calculateAttendancePercentage 5 2 = 250
    ∧ ¬(calculateAttendancePercentage 5 2 ≤ 100)
    ∧ calculateAttendancePercentage 201 200 = 100
    ∧ round ((100 * (201 : ℚ)) / 200) = 101 := by
  refine ⟨by decide, by decide, by decide, ?_⟩
  rw [round_eq]
  norm_num

/-- C6 (amended): in the code's float64 arithmetic the percentage is
exactly 0 when totalWorkingDays is 0, is never negative, is at most 100
provided presentDays does not exceed totalWorkingDays, and under the
same proviso differs from the exact round(100 * presentDays /
totalWorkingDays) by at most 1 (it can differ, as at (201, 200), by the
double rounding of the division and the multiplication). -/
theorem calculateAttendancePercentage_spec (p t : Nat) :
    calculateAttendancePercentage p 0 = 0
    ∧ 0 ≤ calculateAttendancePercentage p t
    ∧ (p ≤ t → calculateAttendancePercentage p t ≤ 100)
    ∧ (t ≠ 0 → p ≤ t →
      |calculateAttendancePercentage p t - round ((100 * (p : ℚ)) / t)| ≤ 1) := by
  have hu0 : (0 : ℚ) < (2 : ℚ) ^ (-(53 : ℤ)) := by positivity
  have hu1 : (2 : ℚ) ^ (-(53 : ℤ)) ≤ 1 / 1000 := by norm_num
  set u : ℚ := (2 : ℚ) ^ (-(53 : ℤ)) with hudef
  clear_value u
  by_cases ht : t = 0
  · subst ht
    refine ⟨rfl, ?_, ?_, ?_⟩
    · simp [calculateAttendancePercentage]
    · intro _
      simp [calculateAttendancePercentage]
    · intro h
      exact absurd rfl h
  · have htQ : (0 : ℚ) < t := by exact_mod_cast Nat.pos_of_ne_zero ht
    have hcalc : calculateAttendancePercentage p t =
        jsRound (fl64Z ((fl64Frac p t).1 * 100) (fl64Frac p t).2).1
          (fl64Z ((fl64Frac p t).1 * 100) (fl64Frac p t).2).2 := by
      unfold calculateAttendancePercentage
      rw [if_neg ht]
    by_cases hp : p = 0
    · subst hp
      have hx0 : fl64Frac 0 t = (0, 0) := by
        unfold fl64Frac
        rw [if_pos (Or.inl rfl)]
      have h0 : calculateAttendancePercentage 0 t = 0 := by
        rw [hcalc, hx0]
        norm_num [fl64Z, jsRound]
      refine ⟨rfl, ?_, ?_, ?_⟩
      · rw [h0]
      · intro _
        rw [h0]
        norm_num
      · intro _ _
        rw [h0]
        rw [show (100 * ((0 : ℕ) : ℚ)) / t = 0 by norm_num, round_zero]
        norm_num
    · have hp1 : 0 < p := Nat.pos_of_ne_zero hp
      have ht1 : 0 < t := Nat.pos_of_ne_zero ht
      have hpQ : (0 : ℚ) < p := by exact_mod_cast hp1
      have hq0 : (0 : ℚ) < (p : ℚ) / t := div_pos hpQ htQ
      have hXerr := fl64Frac_err p t hp1 ht1
      rw [← hudef] at hXerr
      set q : ℚ := (p : ℚ) / t with hqdef
      set x := fl64Frac p t with hxdef
      set y := fl64Z (x.1 * 100) x.2 with hydef
      clear_value x
      clear_value q
      set X : ℚ := ((x.1 : ℤ) : ℚ) * (2 : ℚ) ^ x.2 with hXdef
      clear_value X
      obtain ⟨hX1, hX2⟩ := abs_le.mp hXerr
      have hqu : q * u ≤ q * (1 / 1000) :=
        mul_le_mul_of_nonneg_left hu1 hq0.le
      have hXpos : 0 < X := by linarith
      have h2x : (0 : ℚ) < (2 : ℚ) ^ x.2 := by positivity
      have hx1pos : 0 < x.1 := by
        by_contra hcon
        push_neg at hcon
        have hxQ : ((x.1 : ℤ) : ℚ) ≤ 0 := by exact_mod_cast hcon
        nlinarith [mul_nonneg (neg_nonneg.mpr hxQ) h2x.le]
      have hm2pos : 0 < x.1 * 100 := by omega
      have hYerr := fl64Z_err (x.1 * 100) x.2 hm2pos
      rw [← hudef, ← hydef] at hYerr
      clear_value y
      set Y : ℚ := ((y.1 : ℤ) : ℚ) * (2 : ℚ) ^ y.2 with hYdef
      clear_value Y
      have hprod : ((x.1 * 100 : ℤ) : ℚ) * (2 : ℚ) ^ x.2 = 100 * X := by
        rw [hXdef]
        push_cast
        ring
      rw [hprod] at hYerr
      obtain ⟨hY1, hY2⟩ := abs_le.mp hYerr
      have hXu : 100 * X * u ≤ 100 * X * (1 / 1000) :=
        mul_le_mul_of_nonneg_left hu1 (by linarith)
      have hYpos : 0 ≤ Y := by linarith
      have h2y : (0 : ℚ) < (2 : ℚ) ^ y.2 := by positivity
      have hy1pos : 0 ≤ y.1 := by
        by_contra hcon
        push_neg at hcon
        have hyQ : ((y.1 : ℤ) : ℚ) < 0 := by exact_mod_cast hcon
        nlinarith [mul_pos (neg_pos.mpr hyQ) h2y]
      have hjs : calculateAttendancePercentage p t = ⌊Y + 1 / 2⌋ := by
        rw [hcalc, jsRound_eq y.1 y.2 hy1pos, ← hYdef]
      refine ⟨rfl, ?_, ?_, ?_⟩
      · rw [hjs]
        exact Int.le_floor.mpr (by push_cast; linarith)
      · intro hpt
        have hq1 : q ≤ 1 := by
          rw [hqdef, div_le_one htQ]
          exact_mod_cast hpt
        have hY101 : Y + 1 / 2 < 101 := by linarith
        rw [hjs]
        have h101 : ⌊Y + 1 / 2⌋ < 101 := Int.floor_lt.mpr (by push_cast; linarith)
        omega
      · intro _ hpt
        have hq1 : q ≤ 1 := by
          rw [hqdef, div_le_one htQ]
          exact_mod_cast hpt
        have hround : round ((100 * (p : ℚ)) / t) = ⌊100 * q + 1 / 2⌋ := by
          rw [round_eq, hqdef]
          congr 1
          ring
        have habs : |Y - 100 * q| ≤ |Y - 100 * X| + 100 * |X - q| := by
          have h := abs_sub_le Y (100 * X) (100 * q)
          have hXq : |100 * X - 100 * q| = 100 * |X - q| := by
            rw [show 100 * X - 100 * q = 100 * (X - q) by ring, abs_mul]
            norm_num
          rw [hXq] at h
          exact h
        have hXb : X ≤ 1 + 1 / 1000 := by linarith
        have herrY : |Y - 100 * q| ≤ 1 / 4 := by
          have s1 : 100 * X * (1 / 1000) ≤ 100 * (1 + 1 / 1000) * (1 / 1000) := by
            linarith
          have s2 : 100 * |X - q| ≤ 100 * (q * u) := by
            linarith [hXerr]
          have s3 : 100 * (q * u) ≤ 100 * (q * (1 / 1000)) := by
            linarith [hqu]
          have s4 : 100 * (q * (1 / 1000)) ≤ 100 * (1 / 1000) := by
            linarith
          linarith [habs, hYerr]
        obtain ⟨hE1, hE2⟩ := abs_le.mp herrY
        rw [hjs, hround]
        have hlow : ⌊(100 * q + 1 / 2 : ℚ)⌋ - 1 ≤ ⌊Y + 1 / 2⌋ := by
          calc ⌊(100 * q + 1 / 2 : ℚ)⌋ - 1
              = ⌊(100 * q + 1 / 2 : ℚ) - ((1 : ℤ) : ℚ)⌋ :=
                (Int.floor_sub_int _ 1).symm
            _ ≤ ⌊Y + 1 / 2⌋ := Int.floor_le_floor (by push_cast; linarith)
        have hhigh : ⌊Y + 1 / 2⌋ ≤ ⌊(100 * q + 1 / 2 : ℚ)⌋ + 1 := by
          calc ⌊Y + 1 / 2⌋
              ≤ ⌊(100 * q + 1 / 2 : ℚ) + ((1 : ℤ) : ℚ)⌋ :=
                Int.floor_le_floor (by push_cast; linarith)
            _ = ⌊(100 * q + 1 / 2 : ℚ)⌋ + 1 := Int.floor_add_int _ 1
        rw [abs_le]
        omega

/-- Witness for C6: presentDays 1 of totalWorkingDays 3 stays within
the bound and within one unit of the exact rounding. -/
theorem calculateAttendancePercentage_spec_witness :
    calculateAttendancePercentage 1 3 ≤ 100
    ∧ |calculateAttendancePercentage 1 3 - round ((100 * ((1 : ℕ) : ℚ)) / ((3 : ℕ) : ℚ))| ≤ 1 :=
  ⟨(calculateAttendancePercentage_spec 1 3).2.2.1 (by norm_num),
   (calculateAttendancePercentage_spec 1 3).2.2.2 (by norm_num) (by norm_num)⟩

/-- The accumulating loop of `countAttendance` computes the lengths of
the in-range Present and in-range Absent sublists. -/
theorem countAttendanceAux_spec (startDate endDate : Int)
    (records : List AttendanceRecord) :
    countAttendanceAux startDate endDate records =
      ((records.filter (fun r => (decide (startDate ≤ r.date)
          && decide (r.date ≤ endDate))
          && (r.status == AttStatus.present))).length,
       (records.filter (fun r => (decide (startDate ≤ r.date)
          && decide (r.date ≤ endDate))
          && (r.status == AttStatus.absent))).length) := by
  induction records with
  | nil => rfl
  | cons r rest ih =>
    cases hin : decide (startDate ≤ r.date) && decide (r.date ≤ endDate)
    · simp [countAttendanceAux, hin, List.filter_cons, ih]
    · cases hst : r.status
      · simp [countAttendanceAux, hin, hst, List.filter_cons, ih]
      · simp [countAttendanceAux, hin, hst, List.filter_cons, ih]

/-- C7: `countAttendance` tallies exactly the records whose date lies
in the inclusive range — `present` and `absent` count the matching
records by status — and `total` is their sum. -/
theorem countAttendance_spec (records : List AttendanceRecord)
    (startDate endDate : Int) (h : startDate ≤ endDate) :
    (countAttendance records startDate endDate).present =
      (records.filter (fun r => (decide (startDate ≤ r.date)
        && decide (r.date ≤ endDate))
        && (r.status == AttStatus.present))).length
    ∧ (countAttendance records startDate endDate).absent =
      (records.filter (fun r => (decide (startDate ≤ r.date)
        && decide (r.date ≤ endDate))
        && (r.status == AttStatus.absent))).length
    ∧ (countAttendance records startDate endDate).total =
      (countAttendance records startDate endDate).present +
        (countAttendance records startDate endDate).absent := by
  simp [countAttendance, countAttendanceAux_spec]

/-- Witness for C7: three records, one outside the March range. -/
theorem countAttendance_spec_witness :
    (countAttendance
      [⟨mkDate 2024 3 4, AttStatus.present⟩,
        ⟨mkDate 2024 3 5, AttStatus.absent⟩,
        ⟨mkDate 2024 4 1, AttStatus.present⟩]
      (mkDate 2024 3 1) (mkDate 2024 3 31)).total =
    (countAttendance
      [⟨mkDate 2024 3 4, AttStatus.present⟩,
        ⟨mkDate 2024 3 5, AttStatus.absent⟩,
        ⟨mkDate 2024 4 1, AttStatus.present⟩]
      (mkDate 2024 3 1) (mkDate 2024 3 31)).present +
    (countAttendance
      [⟨mkDate 2024 3 4, AttStatus.present⟩,
        ⟨mkDate 2024 3 5, AttStatus.absent⟩,
        ⟨mkDate 2024 4 1, AttStatus.present⟩]
      (mkDate 2024 3 1) (mkDate 2024 3 31)).absent :=
  (countAttendance_spec
    [⟨mkDate 2024 3 4, AttStatus.present⟩,
      ⟨mkDate 2024 3 5, AttStatus.absent⟩,
      ⟨mkDate 2024 4 1, AttStatus.present⟩]
    (mkDate 2024 3 1) (mkDate 2024 3 31) (by decide)).2.2

/-- C8: inside the internship period, off holidays, with a non-empty
custom working-day set configured, admissibility is decided solely by
membership of the date's weekday name in the custom set. -/
theorem customWorkingDays_spec (date : Int) (config : WorkingDaysConfig)
    (holidays : List Int) (days : List String)
    (h1 : config.internshipStartDate ≤ date)
    (h2 : date ≤ config.internshipEndDate)
    (h3 : holidays.contains date = false)
    (h4 : config.customDays = some days) (h5 : days ≠ []) :
    (isValidWorkingDayCfg date config holidays).isValid = true ↔
      days.contains (getDayName date) = true := by
  unfold isValidWorkingDayCfg
  rw [if_neg (by omega : ¬date < config.internshipStartDate),
    if_neg (by omega : ¬config.internshipEndDate < date),
    if_neg (show ¬holidays.contains date = true by simp only [h3]; decide)]
  simp only [h4, Option.getD_some]
  rw [if_pos (List.length_pos.mpr h5)]
  cases hc : days.contains (getDayName date)
  · simp [hc]
  · simp [hc]

/-- Witness for C8: with custom set {Monday, Saturday}, the Saturday
2024-03-09 is a working day and the Tuesday 2024-03-05 is not. -/
theorem customWorkingDays_spec_witness :
    (isValidWorkingDayCfg (mkDate 2024 3 9)
      ⟨2, some ["Monday", "Saturday"], mkDate 2024 3 1, mkDate 2024 8 31⟩
      []).isValid = true
    ∧ (isValidWorkingDayCfg (mkDate 2024 3 5)
      ⟨2, some ["Monday", "Saturday"], mkDate 2024 3 1, mkDate 2024 8 31⟩
      []).isValid = false := by
  have h9 := customWorkingDays_spec (mkDate 2024 3 9)
    ⟨2, some ["Monday", "Saturday"], mkDate 2024 3 1, mkDate 2024 8 31⟩
    [] ["Monday", "Saturday"] (by decide) (by decide) rfl rfl (by decide)
  have h5 := customWorkingDays_spec (mkDate 2024 3 5)
    ⟨2, some ["Monday", "Saturday"], mkDate 2024 3 1, mkDate 2024 8 31⟩
    [] ["Monday", "Saturday"] (by decide) (by decide) rfl rfl (by decide)
  refine ⟨h9.mpr (by decide), ?_⟩
  cases hv : (isValidWorkingDayCfg (mkDate 2024 3 5)
      ⟨2, some ["Monday", "Saturday"], mkDate 2024 3 1, mkDate 2024 8 31⟩
      []).isValid
  · rfl
  · exact absurd (h5.mp hv) (by decide)

/-- C9: on a structurally invalid (unparsable) date string the engine
signals an error (the RangeError thrown by `toISOString` on the
Invalid-Date Monday) and never returns a ValidationResult, so a
malformed date is never reported as a business-rule violation. -/
theorem malformedDate_spec (studentId : String) (date : JSDateStr)
    (daysPerWeekAllowed : Nat) (internshipStartDate internshipEndDate : JSDateStr)
    (holidays : List String) (existingAttendance : List JSAttendanceRecord)
    (h : date.parsed = none) :
    validateAttendanceMarkableJS studentId date daysPerWeekAllowed
      internshipStartDate internshipEndDate holidays existingAttendance =
      Except.error "Invalid time value"
    ∧ ∀ r : ValidationResult,
      validateAttendanceMarkableJS studentId date daysPerWeekAllowed
        internshipStartDate internshipEndDate holidays existingAttendance ≠
        Except.ok r := by
  have he : validateAttendanceMarkableJS studentId date daysPerWeekAllowed
      internshipStartDate internshipEndDate holidays existingAttendance =
      Except.error "Invalid time value" := by
    unfold validateAttendanceMarkableJS getWorkingDaysInWeekJS
    rw [h]
  refine ⟨he, ?_⟩
  intro r hr
  rw [he] at hr
  exact Except.noConfusion hr

/-- Witness for C9: the regex-shaped but unparsable date "2024-13-99"
makes the engine signal the error. -/
theorem malformedDate_spec_witness :
    validateAttendanceMarkableJS "s1" ⟨"2024-13-99", none⟩ 5
      ⟨"2024-03-01", some (mkDate 2024 3 1)⟩
      ⟨"2024-08-31", some (mkDate 2024 8 31)⟩ [] [] =
      Except.error "Invalid time value" :=
  (malformedDate_spec "s1" ⟨"2024-13-99", none⟩ 5
    ⟨"2024-03-01", some (mkDate 2024 3 1)⟩
    ⟨"2024-08-31", some (mkDate 2024 8 31)⟩ [] [] rfl).1

/-- C10: the result of `validateAttendanceMarkable` does not depend on
the `studentId` argument. -/
theorem validateAttendanceMarkable_studentId_irrelevant
    (studentId1 studentId2 : String) (date : Int) (daysPerWeekAllowed : Nat)
    (internshipStartDate internshipEndDate : Int) (holidays : List Int)
    (existingAttendance : List AttendanceRecord) :
    validateAttendanceMarkable studentId1 date daysPerWeekAllowed
      internshipStartDate internshipEndDate holidays existingAttendance =
    validateAttendanceMarkable studentId2 date daysPerWeekAllowed
      internshipStartDate internshipEndDate holidays existingAttendance := rfl
